import Mathlib

/-!
Verification of the vote-integrity subsystem of the Truvox backend
(`src/app/routes/vote_routes.py`): the vote casting protocol, the
already-voted check, the tally aggregation and the election-integrity
reconciler, together with the hash-chained ledger described by the design
document.

The Python handlers are embedded as pure functions: the MongoDB election
and voter collections become association lists keyed by id, the external
Hyperledger Fabric network becomes abstract parameters (the outcome of a
`peer chaincode invoke`, and a query function from transaction id to the
stored key string), and raised `HTTPException`s become `Except` errors.
-/

namespace Truvox

/-- Validity of a MongoDB ObjectId string as checked by
`bson.ObjectId(vote.election_id)`: a 24 character hexadecimal string. -/
def isValidObjectId (s : String) : Bool :=
  s.length == 24 && s.data.all (fun c =>
    c.isDigit || ('a' ≤ c && c ≤ 'f') || ('A' ≤ c && c ≤ 'F'))

/-- A candidate subdocument of an election (`models/election_model.py`,
class `Candidate`; only `name` is read by the vote routes). -/
structure Candidate where
  name : String
  party : String
  symbol : String
deriving Repr, DecidableEq

/-- A vote subdocument as written by `cast_vote` (`vote_routes.py` lines
91-95): keys `epic_id`, `candidate` and `transaction_id`.  The
`transaction_id` is optional because `verify_election_integrity` guards
against its absence with `vote.get("transaction_id")`. -/
structure VoteEntry where
  epic_id : String
  candidate : String
  transaction_id : Option String
deriving Repr, DecidableEq

/-- Python `dict.get` on a stored vote document: the only keys ever
written are `epic_id`, `candidate` and `transaction_id`; `.get` of any
other key returns `None`. -/
def VoteEntry.get (v : VoteEntry) (key : String) : Option String :=
  if key = "epic_id" then some v.epic_id
  else if key = "candidate" then some v.candidate
  else if key = "transaction_id" then v.transaction_id
  else none

/-- The parts of an election document read by the vote routes:
`candidates`, the embedded `votes` list, and `constituency`. -/
structure ElectionDoc where
  candidates : List Candidate
  votes : List VoteEntry
  constituency : String
deriving Repr, DecidableEq

/-- A MongoDB collection keyed by `_id` (documents in insertion order);
`find_one` returns the first match. -/
abbrev ElectionStore := List (String × ElectionDoc)

/-- `collection.find_one ({"_id": oid})`. -/
def findById {α : Type} : List (String × α) → String → Option α
  | [], _ => none
  | (k, x) :: rest, oid => if k = oid then some x else findById rest oid

/-- `collection.update_one ({"_id": oid}, ...)`: applies `f` to the first
document whose `_id` matches. -/
def updateElection : ElectionStore → String → (ElectionDoc → ElectionDoc) → ElectionStore
  | [], _, _ => []
  | (k, el) :: rest, oid, f =>
    if k = oid then (k, f el) :: rest else (k, el) :: updateElection rest oid f

/-- The error responses raised by the vote routes (`HTTPException`s). -/
inductive VoteError
  | invalidIdFormat
  | electionNotFound
  | candidateNotFound
  | conflict
  | blockchainError
  | missingElectionId
  | voterNotFound
  | constituencyMismatch
deriving Repr, DecidableEq

/-- The HTTP status code attached to each raised `HTTPException`. -/
def statusCode : VoteError → Nat
  | .invalidIdFormat => 400
  | .electionNotFound => 404
  | .candidateNotFound => 404
  | .conflict => 400
  | .blockchainError => 500
  | .missingElectionId => 400
  | .voterNotFound => 404
  | .constituencyMismatch => 403

/-- The success payload of `cast_vote`. -/
structure CastOk where
  candidate : String
  transaction_id : String
deriving Repr, DecidableEq

/-- `cast_vote` (`vote_routes.py` lines 61-107).  `blockchain` is the
outcome of `execute_blockchain_command`: `some txn_id` when the
`peer chaincode invoke` output contains a transaction id, `none` when the
invocation fails (which the code surfaces as a 500 `HTTPException`).  The
function returns the response (or error) together with the resulting
election store, which is only written by the final
`update_one ({"$push": {"votes": vote_data}})`. -/
def cast_vote (blockchain : Option String) (store : ElectionStore)
    (election_id epic_id candidate_name : String) :
    Except VoteError CastOk × ElectionStore :=
  if isValidObjectId election_id then
    match findById store election_id with
    | none => (.error .electionNotFound, store)
    | some election =>
      if (election.candidates.map Candidate.name).contains candidate_name then
        if election.votes.any (fun v => v.epic_id == epic_id) then
          (.error .conflict, store)
        else
          match blockchain with
          | none => (.error .blockchainError, store)
          | some txn_id =>
            let vote_data : VoteEntry :=
              { epic_id := epic_id, candidate := candidate_name,
                transaction_id := some txn_id }
            (.ok { candidate := candidate_name, transaction_id := txn_id },
             updateElection store election_id
               (fun el => { el with votes := el.votes ++ [vote_data] }))
      else (.error .candidateNotFound, store)
  else (.error .invalidIdFormat, store)

/-- A voter document, as read by `check_vote` (only the two constituency
fields are consulted; `.get` of a missing field is `none`). -/
structure Voter where
  karnatakaConstituencies : Option String
  parliamentaryConstituencies : Option String
deriving Repr, DecidableEq

abbrev VoterStore := List (String × Voter)

/-- The response body of `check_vote`: either `already_voted` with the
details dictionary (note the `txn` detail is `v.get ("txn")`), or
`not_voted`. -/
inductive CheckStatus
  | already_voted (epic_id candidate : String) (txn : Option String)
  | not_voted
deriving Repr, DecidableEq

/-- The final scan of `check_vote` over `election.get ("votes", [])`:
the first entry with a matching `epic_id` yields `already_voted`. -/
def scanVotes : List VoteEntry → String → CheckStatus
  | [], _ => .not_voted
  | v :: rest, epic_id =>
    if v.epic_id = epic_id then
      .already_voted v.epic_id v.candidate (v.get "txn")
    else scanVotes rest epic_id

/-- `check_vote` (`vote_routes.py` lines 112-166). -/
def check_vote (estore : ElectionStore) (vstore : VoterStore)
    (election_id epic_id : String) : Except VoteError CheckStatus :=
  if isValidObjectId election_id then
    match findById estore election_id with
    | none => .error .electionNotFound
    | some election =>
      match findById vstore epic_id with
      | none => .error .voterNotFound
      | some voter =>
        if voter.karnatakaConstituencies ≠ some election.constituency ∧
            voter.parliamentaryConstituencies ≠ some election.constituency then
          .error .constituencyMismatch
        else .ok (scanVotes election.votes epic_id)
  else .error .invalidIdFormat

/-- Candidate names in order of first appearance in the votes list (the
distinct group keys of the `$group` aggregation stage). -/
def dedupFirst : List String → List String
  | [] => []
  | x :: xs => x :: (dedupFirst xs).filter (fun y => y ≠ x)

/-- Stable insertion into a list of (candidate, count) pairs sorted by
count descending (the `$sort {count: -1}` stage). -/
def insertDesc (x : String × Nat) : List (String × Nat) → List (String × Nat)
  | [] => [x]
  | y :: ys => if y.2 < x.2 then x :: y :: ys else y :: insertDesc x ys

def sortCountDesc (l : List (String × Nat)) : List (String × Nat) :=
  l.foldr insertDesc []

/-- `get_results` (`vote_routes.py` lines 168-183): the aggregation
pipeline `$match / $unwind / $group / $sort`.  A missing election matches
no document, so the pipeline yields an empty result list. -/
def get_results (store : ElectionStore) (election_id : String) :
    Except VoteError (List (String × Nat)) :=
  if isValidObjectId election_id then
    match findById store election_id with
    | none => .ok []
    | some election =>
      .ok (sortCountDesc ((dedupFirst (election.votes.map VoteEntry.candidate)).map
        (fun n => (n, (election.votes.filter (fun v => v.candidate == n)).length))))
  else .error .invalidIdFormat

/-! ## The integrity reconciler (`verify_election_integrity`) -/

/-- The outcome of `query_blockchain_transaction txn`: `some key` when the
chaincode query succeeds and `extract_pattern_from_blockchain` produces a
key string, `none` when any exception is raised (the handler catches it
and `continue`s). -/
abbrev LedgerQuery := String → Option String

/-- Python `str.strip ()` on the character list: drop whitespace from the
front, then from the back. -/
def trimLeft (l : List Char) : List Char := l.dropWhile Char.isWhitespace

def pyStripList (l : List Char) : List Char :=
  (trimLeft ((trimLeft l).reverse)).reverse

def pyStrip (s : String) : String := String.mk (pyStripList s.data)

/-- Python `key.split ("-", 1)` when `"-" in key`: the part before the
first hyphen and the part after it. -/
def splitDash1 (s : String) : String × String :=
  (String.mk (s.data.takeWhile (fun c => c ≠ '-')),
   String.mk ((s.data.dropWhile (fun c => c ≠ '-')).drop 1))

/-- An element of the `verified` result list. -/
structure VerifiedRec where
  transaction_id : String
  epic_id : String
  candidate : String
deriving Repr, DecidableEq

/-- An element of the `corrected` result list: the transaction id, the
pre-correction key `f"{epic_id}-{candidate}"`, and the on-chain key. -/
structure CorrectedRec where
  transaction_id : String
  old : String
  new : String
deriving Repr, DecidableEq

/-- How the reconciler loop body treats a single vote entry. -/
inductive RecStep
  | skip
  | verify (r : VerifiedRec)
  | correct (r : CorrectedRec) (newEpic newCandidate : String)
deriving Repr, DecidableEq

/-- One iteration of the `for vote in votes` loop of
`verify_election_integrity` (`vote_routes.py` lines 298-344), not
including the database write: skip when the transaction id is falsy, the
blockchain query raises, or the key is falsy or has no hyphen; otherwise
compare `(on_chain_epic, on_chain_candidate)` with the stored entry and
classify as verified or corrected. -/
def classify (L : LedgerQuery) (v : VoteEntry) : RecStep :=
  match v.transaction_id with
  | none => .skip
  | some txn =>
    if txn = "" then .skip
    else
      match L txn with
      | none => .skip
      | some key =>
        if key = "" ∨ ¬ key.data.contains '-' then .skip
        else
          if (splitDash1 key).1 ≠ v.epic_id ∨
              pyStrip (splitDash1 key).2 ≠ pyStrip v.candidate then
            .correct { transaction_id := txn,
                       old := v.epic_id ++ "-" ++ v.candidate, new := key }
              (pyStrip (splitDash1 key).1) (pyStrip (splitDash1 key).2)
          else
            .verify { transaction_id := txn, epic_id := v.epic_id,
                      candidate := v.candidate }

/-- The positional `update_one ({"_id": .., "votes.transaction_id": txn},
{"$set": {"votes.$.epic_id": .., "votes.$.candidate": ..}})`: rewrites the
first array element whose `transaction_id` matches. -/
def updateFirstMatching : List VoteEntry → String → String → String → List VoteEntry
  | [], _, _, _ => []
  | v :: rest, txn, e, c =>
    if v.transaction_id = some txn then
      { v with epic_id := e, candidate := c } :: rest
    else v :: updateFirstMatching rest txn e c

/-- The response of `verify_election_integrity` together with the final
state of the election's votes array. -/
structure RecOut where
  verified : List VerifiedRec
  corrected : List CorrectedRec
  votes : List VoteEntry
deriving Repr, DecidableEq

/-- The reconciler loop: iterates over the snapshot of the votes array
fetched at the start, while the corrections are applied one by one to the
stored array (`db`). -/
def reconcileLoop (L : LedgerQuery) : List VoteEntry → List VoteEntry → RecOut
  | [], db => { verified := [], corrected := [], votes := db }
  | v :: rest, db =>
    match classify L v with
    | .skip => reconcileLoop L rest db
    | .verify r =>
      let o := reconcileLoop L rest db
      { o with verified := r :: o.verified }
    | .correct r e c =>
      let o := reconcileLoop L rest (updateFirstMatching db r.transaction_id e c)
      { o with corrected := r :: o.corrected }

/-- `verify_election_integrity` (`vote_routes.py` lines 265-352).  The
request body's `election_id` is `none` when the key is missing; the
handler's `if not election_id` check (line 277) raises the
"Missing election_id." error both for a missing key and for a present but
empty (falsy) id string, before the ObjectId parse.  When the election
has no votes the handler returns early with a message and no result
lists, rendered here as an empty `RecOut`. -/
def verify_election_integrity (L : LedgerQuery) (store : ElectionStore)
    (election_id : Option String) : Except VoteError RecOut × ElectionStore :=
  match election_id with
  | none => (.error .missingElectionId, store)
  | some eid =>
    if eid = "" then (.error .missingElectionId, store)
    else if isValidObjectId eid then
      match findById store eid with
      | none => (.error .electionNotFound, store)
      | some election =>
        if election.votes = [] then
          (.ok { verified := [], corrected := [], votes := [] }, store)
        else
          (.ok (reconcileLoop L election.votes election.votes),
           updateElection store eid (fun el =>
             { el with votes := (reconcileLoop L election.votes election.votes).votes }))
    else (.error .invalidIdFormat, store)

/-! ## The hash-chained ledger backend -/

/-- Modelled from the spec: this source revision implements the Ledger
interface by shelling out to a Hyperledger Fabric network
(`execute_blockchain_command` / `query_blockchain_transaction`), and the
hash-chained ledger backend of design section 4.1 is not present under
`src/`.  A `LedgerBlock` carries the vote payload fields, the
`previous_hash` link and the `current_hash` digest. -/
structure LedgerBlock where
  transaction_id : String
  epic_id : String
  candidate : String
  election_id : String
  previous_hash : String
  current_hash : String
deriving Repr, DecidableEq

/-- Modelled from the spec: the fixed genesis sentinel string used as
`previous_hash` when the ledger is empty. -/
def GENESIS_HASH : String := "GENESIS"

/-- Modelled from the spec: the deterministic pipe-delimited payload
string built from the block's fields. -/
def blockPayload (transaction_id epic_id candidate election_id : String) : String :=
  epic_id ++ "|" ++ candidate ++ "|" ++ election_id ++ "|" ++ transaction_id

/-- Modelled from the spec: `append` of design section 4.1.  The chain is
kept most-recent-first; `previous_hash` is the `current_hash` of the most
recently inserted block across the whole ledger (regardless of which
election it belongs to), or the genesis sentinel on an empty ledger, and
`current_hash` is the digest of the payload concatenated with
`previous_hash`.  The digest function is an abstract parameter. -/
def ledgerAppend (digest : String → String) (chain : List LedgerBlock)
    (transaction_id epic_id candidate election_id : String) : List LedgerBlock :=
  let previous_hash :=
    match chain with
    | [] => GENESIS_HASH
    | b :: _ => b.current_hash
  let payload := blockPayload transaction_id epic_id candidate election_id
  { transaction_id := transaction_id, epic_id := epic_id,
    candidate := candidate, election_id := election_id,
    previous_hash := previous_hash,
    current_hash := digest (payload ++ previous_hash) } :: chain

/-- The ledgers reachable from the empty ledger by `ledgerAppend`. -/
inductive LedgerBuilt (digest : String → String) : List LedgerBlock → Prop
  | nil : LedgerBuilt digest []
  | append (chain : List LedgerBlock) (t e c i : String) :
      LedgerBuilt digest chain →
      LedgerBuilt digest (ledgerAppend digest chain t e c i)

/-- The hash-chain linking invariant on a most-recent-first ledger: each
block's `previous_hash` is its predecessor's `current_hash`, and the
oldest block's `previous_hash` is the genesis sentinel. -/
def ChainLinked : List LedgerBlock → Prop
  | [] => True
  | [b] => b.previous_hash = GENESIS_HASH
  | b :: b2 :: rest => b.previous_hash = b2.current_hash ∧ ChainLinked (b2 :: rest)

/-! ## Helper functions describing the reconciler loop -/

/-- The verified record (if any) that an entry contributes. -/
def verifyOf (L : LedgerQuery) (v : VoteEntry) : Option VerifiedRec :=
  match classify L v with
  | .verify r => some r
  | _ => none

/-- The corrected record (if any) that an entry contributes. -/
def correctOf (L : LedgerQuery) (v : VoteEntry) : Option CorrectedRec :=
  match classify L v with
  | .correct r _ _ => some r
  | _ => none

/-- The database write (if any) performed for one snapshot entry. -/
def applyFix (L : LedgerQuery) (db : List VoteEntry) (v : VoteEntry) : List VoteEntry :=
  match classify L v with
  | .correct r e c => updateFirstMatching db r.transaction_id e c
  | _ => db

/-- The value a vote entry itself is corrected to (identity when the entry
is skipped or verified). -/
def fixVote (L : LedgerQuery) (v : VoteEntry) : VoteEntry :=
  match classify L v with
  | .correct _ e c => { v with epic_id := e, candidate := c }
  | _ => v

/-- The verified record an entry contributes on a second reconciler run:
a first-run-verified entry contributes the same record, a
first-run-corrected entry contributes its post-correction values. -/
def secondRunVerifiedOf (L : LedgerQuery) (v : VoteEntry) : Option VerifiedRec :=
  match classify L v with
  | .skip => none
  | .verify r => some r
  | .correct r e c =>
    some { transaction_id := r.transaction_id, epic_id := e, candidate := c }

/-- A ledger whose keys have a whitespace-trim-stable segment before the
first hyphen (the `on_chain_epic` of the comparison). -/
def TrimStable (L : LedgerQuery) : Prop :=
  ∀ t key, L t = some key → pyStrip (splitDash1 key).1 = (splitDash1 key).1

/-- The first character (if any) of a list is not whitespace. -/
def noLeadWS : List Char → Prop
  | [] => True
  | c :: _ => ¬ Char.isWhitespace c

/-- The double-voting invariant of an election: at most one vote entry per
distinct `epic_id`. -/
def OneVotePerVoter (el : ElectionDoc) : Prop :=
  (el.votes.map VoteEntry.epic_id).Nodup

/-- The double-voting invariant across a whole election store. -/
def StoreOneVotePerVoter (store : ElectionStore) : Prop :=
  ∀ p ∈ store, OneVotePerVoter p.2

/-- A cast request together with the outcome of its blockchain invoke. -/
structure CastReq where
  blockchain : Option String
  election_id : String
  epic_id : String
  candidate_name : String

/-- The store reached after serving a sequence of cast requests (failed
casts leave the store as it was). -/
def applyCasts (store : ElectionStore) (reqs : List CastReq) : ElectionStore :=
  reqs.foldl (fun s q => (cast_vote q.blockchain s q.election_id q.epic_id q.candidate_name).2) store

/-! ## Concrete data for witnesses and counterexamples -/

def wEid : String := "aaaaaaaaaaaaaaaaaaaaaaaa"

def wCand : Candidate := { name := "A", party := "P1", symbol := "S1" }

def wEntry : VoteEntry :=
  { epic_id := "EPIC001", candidate := "A", transaction_id := some "T1" }

def wElection : ElectionDoc :=
  { candidates := [wCand], votes := [wEntry], constituency := "Hubballi" }

def wStore : ElectionStore := [(wEid, wElection)]

def wLedger : LedgerQuery := fun t => if t = "T1" then some "EPIC001-A" else none

def wVoter : Voter :=
  { karnatakaConstituencies := some "Hubballi", parliamentaryConstituencies := none }

def wVoters : VoterStore := [("EPIC001", wVoter)]

/-- A ledger whose key for `T` has a trailing space inside its epic
segment (`"A -B-C"` splits as `("A ", "B-C")`), and an ordinary mismatch
for `S`. -/
def cLedger3 : LedgerQuery := fun t =>
  if t = "T" then some "A -B-C" else if t = "S" then some "E-A" else none

def cVotes3 : List VoteEntry :=
  [{ epic_id := "X", candidate := "C", transaction_id := some "T" },
   { epic_id := "E", candidate := "B", transaction_id := some "S" }]

def cStore3 : ElectionStore :=
  [(wEid, { candidates := [], votes := cVotes3, constituency := "K" })]

/-- A ledger key that matches the stored entry only after trimming the
candidate: the stored candidate is `"A "` and the key is `"E-A"`. -/
def cLedger4 : LedgerQuery := fun t => if t = "T" then some "E-A" else none

def cVotes4 : List VoteEntry :=
  [{ epic_id := "E", candidate := "A ", transaction_id := some "T" }]

/-- A concrete digest function for exercising the hash-chain ledger. -/
def wDigest : String → String := fun s => "h" ++ s

/-- A two-block ledger for two different elections, built by two appends. -/
def wChain2 : List LedgerBlock :=
  ledgerAppend wDigest (ledgerAppend wDigest [] "T1" "EPIC001" "A" "E1")
    "T2" "EPIC002" "B" "E2"

/-! ## Lemmas about the loop body -/

/-- Inversion of the corrected case of the loop body. -/
theorem classify_correct_elim (L : LedgerQuery) (v : VoteEntry)
    (r : CorrectedRec) (e c : String) (h : classify L v = .correct r e c) :
    ∃ txn key, v.transaction_id = some txn ∧ txn ≠ "" ∧ L txn = some key ∧
      r = { transaction_id := txn, old := v.epic_id ++ "-" ++ v.candidate,
            new := key } ∧
      e = pyStrip (splitDash1 key).1 ∧ c = pyStrip (splitDash1 key).2 ∧
      ((splitDash1 key).1 ≠ v.epic_id ∨
        pyStrip (splitDash1 key).2 ≠ pyStrip v.candidate) ∧
      ¬ (key = "" ∨ ¬ key.data.contains '-') := by
  unfold classify at h
  split at h
  · cases h
  · rename_i txn hv
    split at h
    · cases h
    · rename_i h0
      split at h
      · cases h
      · rename_i key hL
        split at h
        · cases h
        · rename_i h1
          split at h
          · rename_i h2
            cases h
            exact ⟨txn, key, hv, h0, hL, rfl, rfl, rfl, h2, h1⟩
          · cases h

/-- The corrected value of an entry keeps its transaction id. -/
theorem fixVote_transaction_id (L : LedgerQuery) (v : VoteEntry) :
    (fixVote L v).transaction_id = v.transaction_id := by
  unfold fixVote
  cases classify L v <;> rfl

/-- The positional update rewrites only `epic_id`/`candidate`: the array's
transaction ids are untouched. -/
theorem updateFirstMatching_map_txn (db : List VoteEntry) (txn e c : String) :
    (updateFirstMatching db txn e c).map VoteEntry.transaction_id =
      db.map VoteEntry.transaction_id := by
  induction db with
  | nil => rfl
  | cons v rest ih =>
    unfold updateFirstMatching
    by_cases hv : v.transaction_id = some txn
    · rw [if_pos hv]
      simp [hv]
    · rw [if_neg hv]
      simp [ih]

/-- The `verified` list is determined entry by entry by the snapshot, in
scan order. -/
theorem reconcileLoop_verified (L : LedgerQuery) (snap : List VoteEntry) :
    ∀ db, (reconcileLoop L snap db).verified = snap.filterMap (verifyOf L) := by
  induction snap with
  | nil => intro db; rfl
  | cons v rest ih =>
    intro db
    cases hc : classify L v with
    | skip => simp [reconcileLoop, hc, verifyOf, List.filterMap_cons, ih]
    | verify r => simp [reconcileLoop, hc, verifyOf, List.filterMap_cons, ih]
    | correct r e c => simp [reconcileLoop, hc, verifyOf, List.filterMap_cons, ih]

/-- The `corrected` list is determined entry by entry by the snapshot, in
scan order. -/
theorem reconcileLoop_corrected (L : LedgerQuery) (snap : List VoteEntry) :
    ∀ db, (reconcileLoop L snap db).corrected = snap.filterMap (correctOf L) := by
  induction snap with
  | nil => intro db; rfl
  | cons v rest ih =>
    intro db
    cases hc : classify L v with
    | skip => simp [reconcileLoop, hc, correctOf, List.filterMap_cons, ih]
    | verify r => simp [reconcileLoop, hc, correctOf, List.filterMap_cons, ih]
    | correct r e c => simp [reconcileLoop, hc, correctOf, List.filterMap_cons, ih]

/-- The final votes array is the fold of the per-entry positional updates
over the snapshot. -/
theorem reconcileLoop_votes (L : LedgerQuery) (snap : List VoteEntry) :
    ∀ db, (reconcileLoop L snap db).votes = snap.foldl (applyFix L) db := by
  induction snap with
  | nil => intro db; rfl
  | cons v rest ih =>
    intro db
    cases hc : classify L v with
    | skip => simp [reconcileLoop, hc, applyFix, List.foldl_cons, ih]
    | verify r => simp [reconcileLoop, hc, applyFix, List.foldl_cons, ih]
    | correct r e c => simp [reconcileLoop, hc, applyFix, List.foldl_cons, ih]

/-- The reconciler write fold never changes the sequence of transaction
ids in the stored array. -/
theorem foldl_applyFix_map_txn (L : LedgerQuery) (snap : List VoteEntry) :
    ∀ db, (snap.foldl (applyFix L) db).map VoteEntry.transaction_id =
      db.map VoteEntry.transaction_id := by
  induction snap with
  | nil => intro db; rfl
  | cons v rest ih =>
    intro db
    rw [List.foldl_cons, ih]
    unfold applyFix
    cases hc : classify L v with
    | skip => rfl
    | verify r => rfl
    | correct r e c => exact updateFirstMatching_map_txn db r.transaction_id e c

/-! ## Idempotence of `.strip` and stability of corrected entries -/

theorem trimLeft_trimLeft (l : List Char) : trimLeft (trimLeft l) = trimLeft l := by
  induction l with
  | nil => rfl
  | cons c cs ih =>
    unfold trimLeft at *
    by_cases hc : Char.isWhitespace c
    · simp [List.dropWhile_cons, hc, ih]
    · simp [List.dropWhile_cons, hc]

theorem noLeadWS_trimLeft (l : List Char) : noLeadWS (trimLeft l) := by
  induction l with
  | nil => trivial
  | cons c cs ih =>
    unfold trimLeft at *
    by_cases hc : Char.isWhitespace c
    · simpa [List.dropWhile_cons, hc] using ih
    · rw [List.dropWhile_cons, if_neg (by simpa using hc)]
      simpa [noLeadWS] using hc

theorem trimLeft_eq_self (l : List Char) (h : noLeadWS l) : trimLeft l = l := by
  cases l with
  | nil => rfl
  | cons c cs =>
    have hc : ¬ Char.isWhitespace c := h
    unfold trimLeft
    rw [List.dropWhile_cons, if_neg (by simpa using hc)]

theorem noLeadWS_of_prefix (p l : List Char) (hp : p <+: l) (h : noLeadWS l) :
    noLeadWS p := by
  cases p with
  | nil => trivial
  | cons c cs =>
    obtain ⟨t, ht⟩ := hp
    cases l with
    | nil => cases ht
    | cons d ds =>
      have hc : c = d := by
        have := congrArg List.head? ht
        simpa using this
      subst hc
      exact h

theorem noLeadWS_rightTrim (l : List Char) (h : noLeadWS l) :
    noLeadWS ((trimLeft l.reverse).reverse) := by
  have hsuf : trimLeft l.reverse <:+ l.reverse := List.dropWhile_suffix _
  have hpre : (trimLeft l.reverse).reverse <+: l := by
    have h2 := List.reverse_prefix.mpr hsuf
    simpa using h2
  exact noLeadWS_of_prefix _ _ hpre h

theorem pyStripList_idem (l : List Char) : pyStripList (pyStripList l) = pyStripList l := by
  unfold pyStripList
  have h1 : noLeadWS (trimLeft l) := noLeadWS_trimLeft l
  have h2 : noLeadWS ((trimLeft (trimLeft l).reverse).reverse) :=
    noLeadWS_rightTrim _ h1
  rw [trimLeft_eq_self _ h2, List.reverse_reverse, trimLeft_trimLeft]

theorem pyStrip_idem (s : String) : pyStrip (pyStrip s) = pyStrip s := by
  simp [pyStrip, pyStripList_idem]

/-- A skipped entry is still skipped after the reconciler leaves it
unchanged. -/
theorem classify_fixVote_skip (L : LedgerQuery) (v : VoteEntry)
    (hc : classify L v = .skip) : classify L (fixVote L v) = .skip := by
  have hfix : fixVote L v = v := by simp [fixVote, hc]
  rw [hfix, hc]

/-- A verified entry is verified again with the same record. -/
theorem classify_fixVote_verify (L : LedgerQuery) (v : VoteEntry)
    (r : VerifiedRec) (hc : classify L v = .verify r) :
    classify L (fixVote L v) = .verify r := by
  have hfix : fixVote L v = v := by simp [fixVote, hc]
  rw [hfix, hc]

/-- Over a trim-stable ledger, a corrected entry verifies on the next run
with its post-correction values. -/
theorem classify_fixVote_correct (L : LedgerQuery) (hT : TrimStable L)
    (v : VoteEntry) (r : CorrectedRec) (e c : String)
    (hc : classify L v = .correct r e c) :
    classify L (fixVote L v) =
      .verify { transaction_id := r.transaction_id, epic_id := e, candidate := c } := by
  obtain ⟨txn, key, hv, h0, hL, hr, he, hc2, hdiff, hkey⟩ :=
    classify_correct_elim L v r e c hc
  have hfix : fixVote L v = { v with epic_id := e, candidate := c } := by
    simp [fixVote, hc]
  have h3 : (splitDash1 key).1 = e := by
    rw [he]
    exact (hT txn key hL).symm
  have h4 : pyStrip (splitDash1 key).2 = pyStrip c := by
    rw [hc2, pyStrip_idem]
  rw [hfix]
  unfold classify
  simp only [show ({ v with epic_id := e, candidate := c } : VoteEntry).transaction_id
      = v.transaction_id from rfl, hv, h0, if_false, hL]
  rw [if_neg hkey, if_neg]
  · simp [hr]
  · simp [h3, h4]

/-- A positional update for a transaction id that is not the head's
passes over the head. -/
theorem applyFix_cons_ne (L : LedgerQuery) (x : VoteEntry) (db : List VoteEntry)
    (v : VoteEntry)
    (h : ∀ r e c, classify L v = .correct r e c →
      x.transaction_id ≠ some r.transaction_id) :
    applyFix L (x :: db) v = x :: applyFix L db v := by
  cases hc : classify L v with
  | skip => simp [applyFix, hc]
  | verify r => simp [applyFix, hc]
  | correct r e c =>
    have h1 : applyFix L (x :: db) v = updateFirstMatching (x :: db) r.transaction_id e c := by
      simp [applyFix, hc]
    have h2 : applyFix L db v = updateFirstMatching db r.transaction_id e c := by
      simp [applyFix, hc]
    rw [h1, h2]
    simp only [updateFirstMatching]
    rw [if_neg (h r e c hc)]

/-- The whole write fold passes over a head entry whose transaction id is
hit by none of the corrections. -/
theorem foldl_applyFix_cons (L : LedgerQuery) (x : VoteEntry) (snap : List VoteEntry) :
    ∀ db, (∀ v ∈ snap, ∀ r e c, classify L v = .correct r e c →
      x.transaction_id ≠ some r.transaction_id) →
    snap.foldl (applyFix L) (x :: db) = x :: snap.foldl (applyFix L) db := by
  induction snap with
  | nil => intro db _; rfl
  | cons v rest ih =>
    intro db h
    rw [List.foldl_cons,
      applyFix_cons_ne L x db v (h v (List.mem_cons_self v rest)),
      List.foldl_cons]
    exact ih (applyFix L db v) (fun w hw => h w (List.mem_cons_of_mem _ hw))

/-- When the votes array carries pairwise distinct transaction ids, the
reconciler run on it corrects each entry in place: the final array is the
pointwise `fixVote` image of the snapshot. -/
theorem foldl_applyFix_self (L : LedgerQuery) :
    ∀ db : List VoteEntry, (db.filterMap VoteEntry.transaction_id).Nodup →
    db.foldl (applyFix L) db = db.map (fixVote L) := by
  intro db
  induction db with
  | nil => intro _; rfl
  | cons v rest ih =>
    intro hnd
    have hsplit : (rest.filterMap VoteEntry.transaction_id).Nodup ∧
        (∀ t, v.transaction_id = some t →
          t ∉ rest.filterMap VoteEntry.transaction_id) := by
      cases hvt : v.transaction_id with
      | none =>
        simp only [List.filterMap_cons, hvt] at hnd
        exact ⟨hnd, fun t ht => by cases ht⟩
      | some t =>
        simp only [List.filterMap_cons, hvt] at hnd
        rcases List.nodup_cons.mp hnd with ⟨hni, hrest⟩
        refine ⟨hrest, fun s hs => ?_⟩
        cases hs
        exact hni
    have hpass : ∀ w ∈ rest, ∀ r e c, classify L w = .correct r e c →
        v.transaction_id ≠ some r.transaction_id := by
      intro w hw r e c hcw heq
      obtain ⟨txn, key, hwt, -, -, hr, -, -, -, -⟩ :=
        classify_correct_elim L w r e c hcw
      have hmem : r.transaction_id ∈ rest.filterMap VoteEntry.transaction_id :=
        List.mem_filterMap.mpr ⟨w, hw, by rw [hwt, hr]⟩
      exact hsplit.2 r.transaction_id heq hmem
    cases hc : classify L v with
    | skip =>
      have h1 : applyFix L (v :: rest) v = v :: rest := by simp [applyFix, hc]
      rw [List.foldl_cons, h1, foldl_applyFix_cons L v rest rest hpass,
        ih hsplit.1, List.map_cons]
      have h2 : fixVote L v = v := by simp [fixVote, hc]
      rw [h2]
    | verify r =>
      have h1 : applyFix L (v :: rest) v = v :: rest := by simp [applyFix, hc]
      rw [List.foldl_cons, h1, foldl_applyFix_cons L v rest rest hpass,
        ih hsplit.1, List.map_cons]
      have h2 : fixVote L v = v := by simp [fixVote, hc]
      rw [h2]
    | correct r e c =>
      obtain ⟨txn, key, hv, -, -, hr, -, -, -, -⟩ :=
        classify_correct_elim L v r e c hc
      have hvr : v.transaction_id = some r.transaction_id := by rw [hv, hr]
      have h1 : applyFix L (v :: rest) v = fixVote L v :: rest := by
        unfold applyFix
        rw [hc]
        unfold updateFirstMatching
        rw [if_pos hvr]
        unfold fixVote
        rw [hc]
      have hpass2 : ∀ w ∈ rest, ∀ r2 e2 c2, classify L w = .correct r2 e2 c2 →
          (fixVote L v).transaction_id ≠ some r2.transaction_id := by
        intro w hw r2 e2 c2 hcw
        rw [fixVote_transaction_id]
        exact hpass w hw r2 e2 c2 hcw
      rw [List.foldl_cons, h1, foldl_applyFix_cons L (fixVote L v) rest rest hpass2,
        ih hsplit.1, List.map_cons]

/-! ## Store update lemmas -/

theorem findById_updateElection (store : ElectionStore) (oid : String)
    (f : ElectionDoc → ElectionDoc) :
    findById (updateElection store oid f) oid = (findById store oid).map f := by
  induction store with
  | nil => rfl
  | cons p rest ih =>
    obtain ⟨k, el⟩ := p
    by_cases hk : k = oid
    · simp [updateElection, findById, hk]
    · simp [updateElection, findById, hk, ih]

theorem updateElection_self (store : ElectionStore) (oid : String)
    (f : ElectionDoc → ElectionDoc) (el : ElectionDoc)
    (hfind : findById store oid = some el) (hf : f el = el) :
    updateElection store oid f = store := by
  induction store with
  | nil => rfl
  | cons p rest ih =>
    obtain ⟨k, el0⟩ := p
    by_cases hk : k = oid
    · simp only [findById, hk, if_true] at hfind
      cases hfind
      simp [updateElection, hk, hf]
    · simp only [findById, hk, if_false] at hfind
      simp [updateElection, hk, ih hfind]

theorem forall_mem_updateElection (store : ElectionStore) (oid : String)
    (f : ElectionDoc → ElectionDoc) (P : ElectionDoc → Prop)
    (hall : ∀ p ∈ store, P p.2)
    (hf : ∀ el, findById store oid = some el → P (f el)) :
    ∀ p ∈ updateElection store oid f, P p.2 := by
  induction store with
  | nil => intro p hp; cases hp
  | cons q rest ih =>
    obtain ⟨k, el0⟩ := q
    intro p hp
    by_cases hk : k = oid
    · simp only [updateElection, hk, if_true] at hp
      rcases List.mem_cons.mp hp with h | h
      · subst h
        exact hf el0 (by simp [findById, hk])
      · exact hall p (List.mem_cons_of_mem _ h)
    · simp only [updateElection, hk, if_false] at hp
      rcases List.mem_cons.mp hp with h | h
      · subst h
        exact hall ⟨k, el0⟩ (List.mem_cons_self _ _)
      · exact ih (fun q hq => hall q (List.mem_cons_of_mem _ hq))
          (fun el hel => hf el (by simp [findById, hk, hel])) p h

/-- A string passing the 24-hex-character ObjectId check is in particular
not empty (not falsy). -/
theorem isValidObjectId_ne_empty (s : String) (h : isValidObjectId s = true) :
    ¬ s = "" := by
  intro he
  subst he
  exact absurd h (by decide)

theorem findById_mem {α : Type} (l : List (String × α)) (oid : String) (x : α)
    (h : findById l oid = some x) : (oid, x) ∈ l := by
  induction l with
  | nil => cases h
  | cons p rest ih =>
    obtain ⟨k, y⟩ := p
    by_cases hk : k = oid
    · simp only [findById, hk, if_true] at h
      cases h
      subst hk
      exact List.mem_cons_self _ _
    · simp only [findById, hk, if_false] at h
      exact List.mem_cons_of_mem _ (ih h)

/-- A single cast request, successful or not, preserves the double-voting
invariant on every election of the store. -/
theorem cast_vote_preserves_invariant (bc : Option String) (store : ElectionStore)
    (eid epic cand : String) (hinv : StoreOneVotePerVoter store) :
    StoreOneVotePerVoter (cast_vote bc store eid epic cand).2 := by
  unfold cast_vote
  split
  · split
    · exact hinv
    · rename_i el hf
      split
      · split
        · exact hinv
        · rename_i hnp
          split
          · exact hinv
          · rename_i txn
            refine forall_mem_updateElection store eid _ OneVotePerVoter hinv ?_
            intro el2 hf2
            rw [hf] at hf2
            cases hf2
            have hepic : epic ∉ el.votes.map VoteEntry.epic_id := by
              intro hmem
              rcases List.mem_map.mp hmem with ⟨w, hw, hwe⟩
              have hany : el.votes.any (fun v => v.epic_id == epic) = true :=
                List.any_eq_true.mpr ⟨w, hw, by simp [hwe]⟩
              exact hnp hany
            have hold : OneVotePerVoter el := hinv (eid, el) (findById_mem store eid el hf)
            unfold OneVotePerVoter at *
            rw [List.map_append]
            simp [List.nodup_append, hold, hepic]
      · exact hinv
  · exact hinv

/-- Any sequence of cast requests preserves the double-voting invariant. -/
theorem applyCasts_preserves_invariant (reqs : List CastReq) :
    ∀ store, StoreOneVotePerVoter store → StoreOneVotePerVoter (applyCasts store reqs) := by
  induction reqs with
  | nil => intro store h; exact h
  | cons q qs ih =>
    intro store h
    exact ih _ (cast_vote_preserves_invariant q.blockchain store q.election_id
      q.epic_id q.candidate_name h)

/-! ## Claim theorems -/

/-- Claim C1: for a cast request on an existing election (valid id, valid
candidate, no prior vote by this epic id), a failing ledger append makes
the whole `cast_vote` fail with the 500 server error and the election
store — including the election's vote list — is returned exactly as it
was: no `VoteEntry` is added. -/
theorem castVote_ledger_failure_no_mutation
    (store : ElectionStore) (eid epic cand : String) (el : ElectionDoc)
    (hv : isValidObjectId eid = true)
    (hf : findById store eid = some el)
    (hc : (el.candidates.map Candidate.name).contains cand = true)
    (hnp : el.votes.any (fun v => v.epic_id == epic) = false) :
    cast_vote none store eid epic cand = (.error .blockchainError, store) ∧
    statusCode .blockchainError = 500 := by
  refine ⟨?_, rfl⟩
  have hnp2 : ¬ (el.votes.any (fun v => v.epic_id == epic) = true) := by
    rw [hnp]
    simp
  unfold cast_vote
  rw [if_pos hv]
  simp only [hf]
  rw [if_pos hc, if_neg hnp2]

theorem castVote_ledger_failure_no_mutation_witness :
    cast_vote none wStore wEid "EPIC002" "A" = (.error .blockchainError, wStore) ∧
    statusCode .blockchainError = 500 :=
  castVote_ledger_failure_no_mutation wStore wEid "EPIC002" "A" wElection
    rfl rfl rfl rfl

/-- Claim C2: a cast for an `epic_id` that already has an entry in the
election's vote list fails with the Conflict error (the 400
"Voter has already voted" response), appending nothing — regardless of
the blockchain outcome the store is unchanged — and consequently the
one-vote-per-voter invariant is preserved by every sequence of cast
attempts. -/
theorem castVote_double_vote_conflict
    (store : ElectionStore) (eid epic cand : String) (el : ElectionDoc)
    (hv : isValidObjectId eid = true)
    (hf : findById store eid = some el)
    (hc : (el.candidates.map Candidate.name).contains cand = true)
    (hdup : el.votes.any (fun v => v.epic_id == epic) = true) :
    (∀ bc, cast_vote bc store eid epic cand = (.error .conflict, store)) ∧
    statusCode .conflict = 400 ∧
    (∀ store0 reqs, StoreOneVotePerVoter store0 →
      StoreOneVotePerVoter (applyCasts store0 reqs)) := by
  refine ⟨?_, rfl, fun store0 reqs h => applyCasts_preserves_invariant reqs store0 h⟩
  intro bc
  unfold cast_vote
  rw [if_pos hv]
  simp only [hf]
  rw [if_pos hc, if_pos hdup]

theorem castVote_double_vote_conflict_witness :
    cast_vote (some "T2") wStore wEid "EPIC001" "A" = (.error .conflict, wStore) :=
  (castVote_double_vote_conflict wStore wEid "EPIC001" "A" wElection
    rfl rfl rfl rfl).1 (some "T2")

/-- Claim C7: casting for a candidate that is not among the election's
declared candidates always fails with the 404 `candidateNotFound` error,
and casting on a non-existent election id fails with the 404
`electionNotFound` error; in both cases the store is returned unchanged
and this holds for every blockchain outcome (no ledger block and no
`VoteEntry` is produced). -/
theorem castVote_notFound_no_mutation
    (store : ElectionStore) (eid epic cand : String)
    (hv : isValidObjectId eid = true) :
    (∀ el, findById store eid = some el →
      (el.candidates.map Candidate.name).contains cand = false →
      ∀ bc, cast_vote bc store eid epic cand = (.error .candidateNotFound, store)) ∧
    (findById store eid = none →
      ∀ bc, cast_vote bc store eid epic cand = (.error .electionNotFound, store)) ∧
    statusCode .candidateNotFound = 404 ∧ statusCode .electionNotFound = 404 := by
  refine ⟨?_, ?_, rfl, rfl⟩
  · intro el hf hc bc
    have hc2 : ¬ ((el.candidates.map Candidate.name).contains cand = true) := by
      rw [hc]
      simp
    unfold cast_vote
    rw [if_pos hv]
    simp only [hf]
    rw [if_neg hc2]
  · intro hf bc
    unfold cast_vote
    rw [if_pos hv]
    simp only [hf]

theorem castVote_notFound_no_mutation_witness :
    cast_vote (some "TX") wStore wEid "EPIC009" "Z" =
      (.error .candidateNotFound, wStore) ∧
    cast_vote (some "TX") [] wEid "EPIC009" "A" = (.error .electionNotFound, []) :=
  ⟨(castVote_notFound_no_mutation wStore wEid "EPIC009" "Z" rfl).1
      wElection rfl rfl (some "TX"),
   (castVote_notFound_no_mutation [] wEid "EPIC009" "A" rfl).2.1 rfl (some "TX")⟩

/-- Claim C10 (amended): `cast_vote`, `check_vote` and `get_results`
reject every id that does not parse as an ObjectId with the 400 "Invalid
election ID format" error, for every store, ledger and blockchain
outcome, returning the store unchanged; `verify_election_integrity` does
the same for every non-empty such id, while a present but empty (falsy)
id is rejected even earlier by its `if not election_id` guard with the
400 "Missing election_id." error — in every case before any read or
mutation. -/
theorem invalid_election_id_rejected (s : String)
    (h : isValidObjectId s = false) :
    (∀ bc store epic cand,
      cast_vote bc store s epic cand = (.error .invalidIdFormat, store)) ∧
    (∀ estore vstore epic,
      check_vote estore vstore s epic = .error .invalidIdFormat) ∧
    (∀ store, get_results store s = .error .invalidIdFormat) ∧
    (s ≠ "" → ∀ L store,
      verify_election_integrity L store (some s) = (.error .invalidIdFormat, store)) ∧
    (∀ L store,
      verify_election_integrity L store (some "") = (.error .missingElectionId, store)) ∧
    statusCode .invalidIdFormat = 400 ∧ statusCode .missingElectionId = 400 := by
  refine ⟨?_, ?_, ?_, ?_, ?_, rfl, rfl⟩
  · intro bc store epic cand
    simp [cast_vote, h]
  · intro estore vstore epic
    simp [check_vote, h]
  · intro store
    simp [get_results, h]
  · intro hne L store
    simp [verify_election_integrity, hne, h]
  · intro L store
    simp [verify_election_integrity]

theorem invalid_election_id_rejected_witness :
    cast_vote none wStore "bad-id" "EPIC001" "A" =
      (.error .invalidIdFormat, wStore) ∧
    check_vote wStore wVoters "bad-id" "EPIC001" = .error .invalidIdFormat ∧
    get_results wStore "bad-id" = .error .invalidIdFormat ∧
    verify_election_integrity wLedger wStore (some "bad-id") =
      (.error .invalidIdFormat, wStore) ∧
    verify_election_integrity wLedger wStore (some "") =
      (.error .missingElectionId, wStore) :=
  ⟨(invalid_election_id_rejected "bad-id" rfl).1 none wStore "EPIC001" "A",
   (invalid_election_id_rejected "bad-id" rfl).2.1 wStore wVoters "EPIC001",
   (invalid_election_id_rejected "bad-id" rfl).2.2.1 wStore,
   (invalid_election_id_rejected "bad-id" rfl).2.2.2.1 (by decide) wLedger wStore,
   (invalid_election_id_rejected "bad-id" rfl).2.2.2.2.1 wLedger wStore⟩

/-- Claim C10, as stated, is false on the reconcile endpoint: the empty
string does not parse as an ObjectId, yet `verify_election_integrity`
rejects it with the "Missing election_id." error — its
`if not election_id` falsy guard (line 277) fires before the ObjectId
parse — not with the "Invalid election ID format" error the claim
asserts. -/
theorem invalid_id_reconcile_counterexample :
    isValidObjectId "" = false ∧
    verify_election_integrity wLedger wStore (some "") =
      (.error .missingElectionId, wStore) ∧
    VoteError.missingElectionId ≠ VoteError.invalidIdFormat :=
  ⟨rfl, rfl, by decide⟩

/-- Claim C9 (evidence of the code bug): on an election whose vote entry
was stored by `cast_vote` with `transaction_id = "T1"`, `check_vote`
answers `already_voted` but the `txn` detail is `none` — the handler
reads `v.get ("txn")` while casts store the key `transaction_id` — so the
response does not carry the transaction id that links the entry to its
ledger block, contrary to the claim. -/
theorem checkVote_txn_detail_is_null :
    check_vote wStore wVoters wEid "EPIC001" =
      .ok (.already_voted "EPIC001" "A" none) ∧
    wEntry.transaction_id = some "T1" ∧
    findById wStore wEid = some wElection ∧
    wElection.votes = [wEntry] ∧
    check_vote wStore wVoters wEid "EPIC999" = .error .voterNotFound :=
  ⟨rfl, rfl, rfl, rfl, rfl⟩

/-- Claim C5: for every ledger reachable by appends, each block's
`current_hash` is the digest of its payload concatenated with its
`previous_hash`; the `previous_hash` of each block is the `current_hash`
of the previous block across the whole chain (or the genesis sentinel for
the oldest block); and a further append links to the head block
regardless of its election. -/
theorem ledger_hash_chain (digest : String → String) (chain : List LedgerBlock)
    (h : LedgerBuilt digest chain) :
    ChainLinked chain ∧
    (∀ b ∈ chain, b.current_hash =
      digest (blockPayload b.transaction_id b.epic_id b.candidate b.election_id ++
        b.previous_hash)) ∧
    (∀ t e c i, ChainLinked (ledgerAppend digest chain t e c i)) := by
  induction h with
  | nil =>
    refine ⟨trivial, ?_, ?_⟩
    · intro b hb
      cases hb
    · intro t e c i
      simp [ledgerAppend, ChainLinked]
  | append chain t e c i hb ih =>
    rcases ih with ⟨hlink, hhash, happ⟩
    refine ⟨happ t e c i, ?_, ?_⟩
    · intro b hb
      rcases List.mem_cons.mp hb with hbh | hbt
      · subst hbh
        rfl
      · exact hhash b hbt
    · intro t2 e2 c2 i2
      exact ⟨rfl, happ t e c i⟩

theorem ledger_hash_chain_witness :
    ChainLinked wChain2 ∧
    (∀ b ∈ wChain2, b.current_hash =
      wDigest (blockPayload b.transaction_id b.epic_id b.candidate b.election_id ++
        b.previous_hash)) ∧
    (∀ t e c i, ChainLinked (ledgerAppend wDigest wChain2 t e c i)) :=
  ledger_hash_chain wDigest wChain2
    (.append _ "T2" "EPIC002" "B" "E2" (.append _ "T1" "EPIC001" "A" "E1" .nil))

/-- Claim C6: a vote entry whose transaction id is absent, or whose
ledger lookup finds no record or raises, is skipped by the reconciler: the
whole run (verified list, corrected list and final votes array) is the
same as on the vote list without that entry — so the entry is counted in
neither bucket, is not mutated, and the remaining entries before and
after it are still processed. -/
theorem reconcile_skips_unverifiable (L : LedgerQuery)
    (pre post db : List VoteEntry) (v : VoteEntry)
    (h : v.transaction_id = none ∨
      ∃ t, v.transaction_id = some t ∧ L t = none) :
    reconcileLoop L (pre ++ v :: post) db = reconcileLoop L (pre ++ post) db := by
  have hskip : classify L v = .skip := by
    rcases h with h | ⟨t, ht, hL⟩
    · simp [classify, h]
    · simp only [classify, ht]
      by_cases h0 : t = ""
      · rw [if_pos h0]
      · rw [if_neg h0]
        simp only [hL]
  induction pre generalizing db with
  | nil =>
    simp only [List.nil_append]
    simp [reconcileLoop, hskip]
  | cons x xs ih =>
    simp only [List.cons_append]
    cases hc : classify L x with
    | skip => simp [reconcileLoop, hc, ih]
    | verify r => simp [reconcileLoop, hc, ih]
    | correct r e c => simp [reconcileLoop, hc, ih]

theorem reconcile_skips_unverifiable_witness :
    reconcileLoop wLedger
      ([] ++ ({ epic_id := "E9", candidate := "Z", transaction_id := none } : VoteEntry)
        :: [wEntry]) [wEntry] =
      reconcileLoop wLedger ([] ++ [wEntry]) [wEntry] :=
  reconcile_skips_unverifiable wLedger [] [wEntry] [wEntry]
    { epic_id := "E9", candidate := "Z", transaction_id := none } (Or.inl rfl)

/-- Claim C8: a reconciler run never deletes a vote entry and never
changes a transaction id: the election's vote list afterwards has the
same length and the same transaction-id sequence as before (so only the
`epic_id` and `candidate` fields of entries may differ), and the
election's candidates and constituency are untouched. -/
theorem reconcile_frame (L : LedgerQuery) (store : ElectionStore) (eid : String)
    (el : ElectionDoc) (o : RecOut) (store2 : ElectionStore)
    (h1 : verify_election_integrity L store (some eid) = (.ok o, store2))
    (h2 : findById store eid = some el) :
    ∃ el2, findById store2 eid = some el2 ∧
      el2.votes.length = el.votes.length ∧
      el2.votes.map VoteEntry.transaction_id = el.votes.map VoteEntry.transaction_id ∧
      el2.candidates = el.candidates ∧ el2.constituency = el.constituency := by
  by_cases hv : isValidObjectId eid = true
  · simp only [verify_election_integrity] at h1
    rw [if_neg (isValidObjectId_ne_empty eid hv), if_pos hv] at h1
    simp only [h2] at h1
    by_cases hempty : el.votes = []
    · rw [if_pos hempty] at h1
      injection h1 with h1a h1b
      injection h1a with h1a
      subst h1b
      exact ⟨el, h2, rfl, rfl, rfl, rfl⟩
    · rw [if_neg hempty] at h1
      injection h1 with h1a h1b
      injection h1a with h1a
      subst h1a
      subst h1b
      refine ⟨{ el with votes := (reconcileLoop L el.votes el.votes).votes },
        ?_, ?_, ?_, rfl, rfl⟩
      · rw [findById_updateElection, h2]
        rfl
      · have hmap : (reconcileLoop L el.votes el.votes).votes.map
            VoteEntry.transaction_id = el.votes.map VoteEntry.transaction_id := by
          rw [reconcileLoop_votes]
          exact foldl_applyFix_map_txn L el.votes el.votes
        have hlen := congrArg List.length hmap
        simpa using hlen
      · show (reconcileLoop L el.votes el.votes).votes.map VoteEntry.transaction_id =
          el.votes.map VoteEntry.transaction_id
        rw [reconcileLoop_votes]
        exact foldl_applyFix_map_txn L el.votes el.votes
  · simp only [verify_election_integrity] at h1
    by_cases he : eid = ""
    · rw [if_pos he] at h1
      have hcontra := congrArg Prod.fst h1
      simp at hcontra
    · rw [if_neg he, if_neg hv] at h1
      have hcontra := congrArg Prod.fst h1
      simp at hcontra

theorem reconcile_frame_witness :
    ∃ el2, findById wStore wEid = some el2 ∧
      el2.votes.length = wElection.votes.length ∧
      el2.votes.map VoteEntry.transaction_id =
        wElection.votes.map VoteEntry.transaction_id ∧
      el2.candidates = wElection.candidates ∧
      el2.constituency = wElection.constituency :=
  reconcile_frame wLedger wStore wEid wElection
    { verified := [{ transaction_id := "T1", epic_id := "EPIC001", candidate := "A" }],
      corrected := [], votes := [wEntry] }
    wStore rfl rfl

theorem fixVote_eq_self_of_skip (L : LedgerQuery) (v : VoteEntry)
    (h : classify L v = .skip) : fixVote L v = v := by
  simp [fixVote, h]

theorem fixVote_eq_self_of_verify (L : LedgerQuery) (v : VoteEntry)
    (r : VerifiedRec) (h : classify L v = .verify r) : fixVote L v = v := by
  simp [fixVote, h]

/-- Over a trim-stable ledger no entry is corrected twice: the corrected
value of any entry classifies as verified or skipped, never corrected. -/
theorem correctOf_fixVote (L : LedgerQuery) (hT : TrimStable L) (v : VoteEntry) :
    correctOf L (fixVote L v) = none := by
  cases hc : classify L v with
  | skip => simp [correctOf, classify_fixVote_skip L v hc]
  | verify r => simp [correctOf, classify_fixVote_verify L v r hc]
  | correct r e c => simp [correctOf, classify_fixVote_correct L hT v r e c hc]

/-- Over a trim-stable ledger, the verified record of a corrected entry
on the next run is its post-correction record. -/
theorem verifyOf_fixVote (L : LedgerQuery) (hT : TrimStable L) (v : VoteEntry) :
    verifyOf L (fixVote L v) = secondRunVerifiedOf L v := by
  cases hc : classify L v with
  | skip =>
    simp [verifyOf, secondRunVerifiedOf, hc, classify_fixVote_skip L v hc]
  | verify r =>
    simp [verifyOf, secondRunVerifiedOf, hc, classify_fixVote_verify L v r hc]
  | correct r e c =>
    simp [verifyOf, secondRunVerifiedOf, hc, classify_fixVote_correct L hT v r e c hc]

theorem fixVote_idem (L : LedgerQuery) (hT : TrimStable L) (v : VoteEntry) :
    fixVote L (fixVote L v) = fixVote L v := by
  cases hc : classify L v with
  | skip => rw [fixVote_eq_self_of_skip L v hc, fixVote_eq_self_of_skip L v hc]
  | verify r =>
    rw [fixVote_eq_self_of_verify L v r hc, fixVote_eq_self_of_verify L v r hc]
  | correct r e c =>
    exact fixVote_eq_self_of_verify L (fixVote L v) _
      (classify_fixVote_correct L hT v r e c hc)

/-- `filterMap` is monotone under pointwise strengthening of hits. -/
theorem filterMap_sublist_mono {α β : Type} (f g : α → Option β) (l : List α)
    (h : ∀ a b, f a = some b → g a = some b) :
    (l.filterMap f).Sublist (l.filterMap g) := by
  induction l with
  | nil => simp
  | cons v rest ih =>
    rw [List.filterMap_cons, List.filterMap_cons]
    cases hfv : f v with
    | none =>
      cases hgv : g v with
      | none => exact ih
      | some b => exact List.Sublist.cons b ih
    | some b =>
      rw [h v b hfv]
      exact List.Sublist.cons₂ b ih

/-- The pointwise correction keeps the transaction-id sequence, hence
also its `filterMap`. -/
theorem filterMap_txn_map_fixVote (L : LedgerQuery) (votes : List VoteEntry) :
    (votes.map (fixVote L)).filterMap VoteEntry.transaction_id =
      votes.filterMap VoteEntry.transaction_id := by
  rw [List.filterMap_map]
  exact List.filterMap_congr (fun v _ => by
    show (fixVote L v).transaction_id = v.transaction_id
    exact fixVote_transaction_id L v)

/-- Claim C4 (amended): over a votes array with pairwise distinct
transaction ids, the reconciler's results are characterized entry by
entry in scan order: `verified` collects `verifyOf` hits (epic id equal
as stored and candidate equal after trimming), `corrected` collects
`correctOf` hits (the record holding the transaction id, the
pre-correction key `epic_id ++ "-" ++ candidate` and the full ledger
key), and the array afterwards is the pointwise `fixVote` image, whose
corrected entries carry the trimmed segments of the ledger key. -/
theorem reconcile_characterization (L : LedgerQuery) (votes : List VoteEntry)
    (hnd : (votes.filterMap VoteEntry.transaction_id).Nodup) :
    (reconcileLoop L votes votes).verified = votes.filterMap (verifyOf L) ∧
    (reconcileLoop L votes votes).corrected = votes.filterMap (correctOf L) ∧
    (reconcileLoop L votes votes).votes = votes.map (fixVote L) ∧
    (∀ v r e c, classify L v = .correct r e c →
      ∃ txn key, v.transaction_id = some txn ∧ L txn = some key ∧
        r = { transaction_id := txn, old := v.epic_id ++ "-" ++ v.candidate,
              new := key } ∧
        fixVote L v =
          { v with
            epic_id := pyStrip (splitDash1 key).1
            candidate := pyStrip (splitDash1 key).2 }) := by
  refine ⟨reconcileLoop_verified L votes votes,
    reconcileLoop_corrected L votes votes, ?_, ?_⟩
  · rw [reconcileLoop_votes]
    exact foldl_applyFix_self L votes hnd
  · intro v r e c hc
    obtain ⟨txn, key, hv, h0, hL, hr, he, hc2, hdiff, hkey⟩ :=
      classify_correct_elim L v r e c hc
    refine ⟨txn, key, hv, hL, hr, ?_⟩
    rw [he, hc2] at hc
    simp [fixVote, hc]

theorem reconcile_characterization_witness :
    (reconcileLoop cLedger4 cVotes4 cVotes4).verified =
      cVotes4.filterMap (verifyOf cLedger4) ∧
    (reconcileLoop cLedger4 cVotes4 cVotes4).corrected =
      cVotes4.filterMap (correctOf cLedger4) ∧
    (reconcileLoop cLedger4 cVotes4 cVotes4).votes =
      cVotes4.map (fixVote cLedger4) ∧
    (∀ v r e c, classify cLedger4 v = .correct r e c →
      ∃ txn key, v.transaction_id = some txn ∧ cLedger4 txn = some key ∧
        r = { transaction_id := txn, old := v.epic_id ++ "-" ++ v.candidate,
              new := key } ∧
        fixVote cLedger4 v =
          { v with
            epic_id := pyStrip (splitDash1 key).1
            candidate := pyStrip (splitDash1 key).2 }) :=
  reconcile_characterization cLedger4 cVotes4 (by decide)

/-- Claim C4, as stated, is false: this entry's stored key `"E-A "`
differs from the ledger key `"E-A"` for its transaction (the candidate
has a trailing space), yet the reconciler verifies it — the code compares
candidates after `.strip()` — so nothing is corrected, nothing is
overwritten, and the differing entry lands in `verified`. -/
theorem reconcile_corrects_on_any_difference_counterexample :
    ((cVotes4.head?.map (fun v => v.epic_id ++ "-" ++ v.candidate)) =
      some "E-A " ∧ cLedger4 "T" = some "E-A" ∧ "E-A " ≠ "E-A") ∧
    (reconcileLoop cLedger4 cVotes4 cVotes4).corrected = [] ∧
    (reconcileLoop cLedger4 cVotes4 cVotes4).votes = cVotes4 ∧
    (reconcileLoop cLedger4 cVotes4 cVotes4).verified =
      [{ transaction_id := "T", epic_id := "E", candidate := "A " }] :=
  ⟨⟨rfl, rfl, by decide⟩, rfl, rfl, rfl⟩

/-- Claim C3 (amended): when the election's votes carry pairwise distinct
transaction ids and the ledger's keys have trim-stable epic segments, a
second reconcile run with no intervening casts returns an empty
`corrected` list and leaves the store unchanged, and its `verified` list
consists of the votes the first run verified together with the votes the
first run corrected (with their post-correction values), in scan order —
in particular the first run's `verified` list is a sublist of the second
run's. -/
theorem reconcile_idempotent_trim_stable
    (L : LedgerQuery) (store : ElectionStore) (eid : String) (el : ElectionDoc)
    (hv : isValidObjectId eid = true)
    (hf : findById store eid = some el)
    (hT : TrimStable L)
    (hnd : (el.votes.filterMap VoteEntry.transaction_id).Nodup) :
    ∃ o1 o2 store1,
      verify_election_integrity L store (some eid) = (.ok o1, store1) ∧
      verify_election_integrity L store1 (some eid) = (.ok o2, store1) ∧
      o2.corrected = [] ∧
      o2.verified = el.votes.filterMap (secondRunVerifiedOf L) ∧
      o1.verified.Sublist o2.verified := by
  by_cases hempty : el.votes = []
  · have h1 : verify_election_integrity L store (some eid) =
        (.ok { verified := [], corrected := [], votes := [] }, store) := by
      simp only [verify_election_integrity]
      rw [if_neg (isValidObjectId_ne_empty eid hv), if_pos hv]
      simp only [hf]
      rw [if_pos hempty]
    exact ⟨{ verified := [], corrected := [], votes := [] },
      { verified := [], corrected := [], votes := [] }, store, h1, h1, rfl,
      by rw [hempty]; rfl, List.Sublist.refl _⟩
  · have h1 : verify_election_integrity L store (some eid) =
        (.ok (reconcileLoop L el.votes el.votes),
         updateElection store eid (fun e =>
           { e with votes := (reconcileLoop L el.votes el.votes).votes })) := by
      simp only [verify_election_integrity]
      rw [if_neg (isValidObjectId_ne_empty eid hv), if_pos hv]
      simp only [hf]
      rw [if_neg hempty]
    have hvotes1 : (reconcileLoop L el.votes el.votes).votes =
        el.votes.map (fixVote L) := by
      rw [reconcileLoop_votes]
      exact foldl_applyFix_self L el.votes hnd
    have hfind1 : findById (updateElection store eid (fun e =>
        { e with votes := (reconcileLoop L el.votes el.votes).votes })) eid =
        some { el with votes := el.votes.map (fixVote L) } := by
      rw [findById_updateElection, hf, Option.map_some', hvotes1]
    have hne2 : ¬ (({ el with votes := el.votes.map (fixVote L) } :
        ElectionDoc).votes = []) := by
      intro hmap
      exact hempty (List.map_eq_nil_iff.mp hmap)
    have hnd2 : (((el.votes.map (fixVote L)).filterMap
        VoteEntry.transaction_id)).Nodup := by
      rw [filterMap_txn_map_fixVote]
      exact hnd
    have hvotes2 : (reconcileLoop L (el.votes.map (fixVote L))
        (el.votes.map (fixVote L))).votes = el.votes.map (fixVote L) := by
      rw [reconcileLoop_votes, foldl_applyFix_self L _ hnd2, List.map_map]
      apply List.map_congr_left
      intro v _
      exact fixVote_idem L hT v
    have h2 : verify_election_integrity L (updateElection store eid (fun e =>
        { e with votes := (reconcileLoop L el.votes el.votes).votes })) (some eid) =
        (.ok (reconcileLoop L (el.votes.map (fixVote L)) (el.votes.map (fixVote L))),
         updateElection (updateElection store eid (fun e =>
           { e with votes := (reconcileLoop L el.votes el.votes).votes })) eid
           (fun e => { e with votes := (reconcileLoop L (el.votes.map (fixVote L))
             (el.votes.map (fixVote L))).votes })) := by
      simp only [verify_election_integrity]
      rw [if_neg (isValidObjectId_ne_empty eid hv), if_pos hv]
      simp only [hfind1]
      rw [if_neg hne2]
    have h2b : updateElection (updateElection store eid (fun e =>
        { e with votes := (reconcileLoop L el.votes el.votes).votes })) eid
        (fun e => { e with votes := (reconcileLoop L (el.votes.map (fixVote L))
          (el.votes.map (fixVote L))).votes }) =
        updateElection store eid (fun e =>
          { e with votes := (reconcileLoop L el.votes el.votes).votes }) := by
      apply updateElection_self _ eid _ { el with votes := el.votes.map (fixVote L) }
        hfind1
      rw [hvotes2]
    refine ⟨reconcileLoop L el.votes el.votes,
      reconcileLoop L (el.votes.map (fixVote L)) (el.votes.map (fixVote L)),
      updateElection store eid (fun e =>
        { e with votes := (reconcileLoop L el.votes el.votes).votes }),
      h1, by rw [h2, h2b], ?_, ?_, ?_⟩
    · rw [reconcileLoop_corrected, List.filterMap_map]
      apply List.filterMap_eq_nil_iff.mpr
      intro v _
      exact correctOf_fixVote L hT v
    · rw [reconcileLoop_verified, List.filterMap_map]
      exact List.filterMap_congr (fun v _ => verifyOf_fixVote L hT v)
    · rw [reconcileLoop_verified, reconcileLoop_verified]
      have himp : ∀ v b, verifyOf L v = some b → verifyOf L (fixVote L v) = some b := by
        intro v b hb
        cases hc : classify L v with
        | skip => simp only [verifyOf, hc] at hb; cases hb
        | verify r =>
          simp only [verifyOf, hc] at hb
          cases hb
          simp [verifyOf, classify_fixVote_verify L v _ hc]
        | correct r e c => simp only [verifyOf, hc] at hb; cases hb
      have hmono := filterMap_sublist_mono (verifyOf L)
        (fun v => verifyOf L (fixVote L v)) el.votes himp
      rw [List.filterMap_map]
      exact hmono

theorem reconcile_idempotent_trim_stable_witness :
    ∃ o1 o2 store1,
      verify_election_integrity wLedger wStore (some wEid) = (.ok o1, store1) ∧
      verify_election_integrity wLedger store1 (some wEid) = (.ok o2, store1) ∧
      o2.corrected = [] ∧
      o2.verified = wElection.votes.filterMap (secondRunVerifiedOf wLedger) ∧
      o1.verified.Sublist o2.verified :=
  reconcile_idempotent_trim_stable wLedger wStore wEid wElection rfl rfl
    (by
      intro t key h
      by_cases ht : t = "T1"
      · simp only [wLedger] at h
        rw [if_pos ht] at h
        injection h with h
        subst h
        decide
      · simp only [wLedger] at h
        rw [if_neg ht] at h
        cases h)
    (by decide)

/-- Claim C3, as stated, is false on the code: on this election the first
reconcile run corrects both entries, and the second run still reports a
non-empty `corrected` (the ledger key `"A -B-C"` has a space before the
first hyphen, so its epic segment `"A "` never equals the stored trimmed
`"A"`), and its `verified` set (one record) differs from the first run's
(empty). -/
theorem reconcile_idempotent_counterexample :
    (verify_election_integrity cLedger3 cStore3 (some wEid)).1 =
      .ok { verified := [],
            corrected :=
              [{ transaction_id := "T", old := "X-C", new := "A -B-C" },
               { transaction_id := "S", old := "E-B", new := "E-A" }],
            votes :=
              [{ epic_id := "A", candidate := "B-C", transaction_id := some "T" },
               { epic_id := "E", candidate := "A", transaction_id := some "S" }] } ∧
    (verify_election_integrity cLedger3
      (verify_election_integrity cLedger3 cStore3 (some wEid)).2 (some wEid)).1 =
      .ok { verified :=
              [{ transaction_id := "S", epic_id := "E", candidate := "A" }],
            corrected :=
              [{ transaction_id := "T", old := "A-B-C", new := "A -B-C" }],
            votes :=
              [{ epic_id := "A", candidate := "B-C", transaction_id := some "T" },
               { epic_id := "E", candidate := "A", transaction_id := some "S" }] } :=
  ⟨rfl, rfl⟩

end Truvox
